import Mathlib

/-!
Verification of the co-viewing room server (`src/server.js`).

The server keeps an in-memory map of rooms (`const rooms = new Map()`), and
each socket carries a `roomCode` property binding it to at most one room.
JavaScript `Map`s preserve insertion order, `set` replaces an existing key in
place, and `keys().next().value` is the first-inserted key; we model them as
association lists with exactly those semantics.  Every inbound handler is
translated as a pure function from server state (plus the request data and the
nondeterministic inputs `Math.random()` / `Date.now()` / `uuidv4()`) to the new
server state together with the list of emitted events.  `socket.emit`,
`io.to(code).emit` and `socket.to(code).emit` are modelled by an explicit
target on each emitted event (direct to one connection, to the whole room
topic, or to the room topic minus the origin).
-/

namespace Server

/-- Lookup in an insertion-ordered association list (JS `Map.get`). -/
def mapLookup {β : Type} : List (Nat × β) → Nat → Option β
  | [], _ => none
  | (a, b) :: rest, k => if a = k then some b else mapLookup rest k

/-- Insert/overwrite in an insertion-ordered association list (JS `Map.set`):
replaces the value in place when the key is present, otherwise appends. -/
def mapSet {β : Type} : List (Nat × β) → Nat → β → List (Nat × β)
  | [], k, v => [(k, v)]
  | (a, b) :: rest, k, v =>
    if a = k then (k, v) :: rest else (a, b) :: mapSet rest k v

/-- Removal from an association list (JS `Map.delete`), preserving the order
of the remaining entries. -/
def mapDelete {β : Type} : List (Nat × β) → Nat → List (Nat × β)
  | [], _ => []
  | (a, b) :: rest, k =>
    if a = k then mapDelete rest k else (a, b) :: mapDelete rest k

/-- JS `array.slice(-n)`: the last `n` elements (the whole list if shorter). -/
def sliceLast {α : Type} (n : Nat) (l : List α) : List α :=
  l.drop (l.length - n)

/-- A member record as stored in `room.members` (`{ nickname, isHost }`);
the connection id is the map key. -/
structure Member where
  nickname : String
  isHost : Bool
deriving Repr, DecidableEq

/-- `room.videoState`: `{ isPlaying, currentTime, lastUpdate }`. -/
structure VideoState where
  isPlaying : Bool
  currentTime : Int
  lastUpdate : Nat
deriving Repr, DecidableEq

/-- The `action` payload of a `videoAction` event. -/
structure VideoAction where
  isPlaying : Bool
  currentTime : Int
deriving Repr, DecidableEq

/-- A chat entry as built by the `chatMessage` handler. -/
structure ChatMessage where
  id : String
  nickname : String
  message : String
  timestamp : Nat
  isHost : Bool
deriving Repr, DecidableEq

/-- The room object built in the `createRoom` handler. -/
structure Room where
  code : Nat
  host : Nat
  hostNickname : String
  members : List (Nat × Member)
  currentEpisode : Option String
  animeId : Option String
  videoState : VideoState
  chat : List ChatMessage
deriving Repr, DecidableEq

/-- Audience of an emitted event: `socket.emit` goes to one connection,
`io.to(code).emit` to the whole room topic, `socket.to(code).emit` to the
room topic minus the originating connection. -/
inductive Target where
  | conn (id : Nat)
  | roomAll (code : Nat)
  | roomExcept (code : Nat) (origin : Nat)
deriving Repr, DecidableEq

/-- The outbound events the server emits, with their payloads. -/
inductive Ev where
  | roomCreated (roomCode : Nat) (isHost : Bool) (members : List Member)
  | errorMsg (message : String)
  | userJoined (nickname : String) (members : List Member)
  | roomJoined (roomCode : Nat) (isHost : Bool) (currentEpisode : Option String)
      (animeId : Option String) (videoState : VideoState)
      (members : List Member) (chat : List ChatMessage)
  | videoActionEv (action : VideoAction)
  | changeEpisodeEv (episodeId : String) (animeId : String)
  | chatMessageEv (m : ChatMessage)
  | roomInfo (members : List Member) (currentEpisode : Option String)
      (animeId : Option String) (videoState : VideoState)
  | newHost (newHostId : Nat) (newHostNickname : String) (members : List Member)
  | userLeft (nickname : Option String) (members : List Member)
deriving Repr, DecidableEq

/-- One emitted event together with its audience. -/
abbrev Out := Target × Ev

/-- Whole-server state: the `rooms` registry keyed by room code, and the
per-connection `socket.roomCode` bindings. -/
structure ServerState where
  rooms : List (Nat × Room)
  conns : List (Nat × Nat)
deriving Repr, DecidableEq

/-- The state at server start: no rooms, no connections bound. -/
def initState : ServerState := { rooms := [], conns := [] }

/-- `generateRoomCode`: `Math.floor(10000 + Math.random() * 90000).toString()`.
`rand` stands for the sampled `Math.floor(Math.random() * 90000)`, a natural
number below `90000`; we keep the code as the underlying number. -/
def generateRoomCode (rand : Nat) : Nat :=
  10000 + rand % 90000

/-- The `createRoom` handler: builds a fresh room with the creator as sole
(host) member and stores it under the generated code.  Note the source calls
`rooms.set(roomCode, room)` without checking whether the code is already
taken, so a colliding code silently overwrites the existing room. -/
def createRoom (s : ServerState) (connId : Nat) (nickname : String)
    (rand now : Nat) : ServerState × List Out :=
  let roomCode := generateRoomCode rand
  let room : Room :=
    { code := roomCode
      host := connId
      hostNickname := nickname
      members := [(connId, { nickname := nickname, isHost := true })]
      currentEpisode := none
      animeId := none
      videoState := { isPlaying := false, currentTime := 0, lastUpdate := now }
      chat := [] }
  ({ rooms := mapSet s.rooms roomCode room
     conns := mapSet s.conns connId roomCode },
   [(Target.conn connId,
     Ev.roomCreated roomCode true (room.members.map Prod.snd))])

/-- The `joinRoom` handler: errors on an unknown code or a full room
(`members.size >= 10`), otherwise adds a non-host member, rebinds the
connection, broadcasts `userJoined` to the room and replies `roomJoined`
(with the last 50 chat messages) to the joiner. -/
def joinRoom (s : ServerState) (connId : Nat) (roomCode : Nat)
    (nickname : String) : ServerState × List Out :=
  match mapLookup s.rooms roomCode with
  | none => (s, [(Target.conn connId, Ev.errorMsg "Room not found")])
  | some room =>
    if room.members.length ≥ 10 then
      (s, [(Target.conn connId, Ev.errorMsg "Room is full")])
    else
      let members' := mapSet room.members connId
        { nickname := nickname, isHost := false }
      let room' := { room with members := members' }
      ({ rooms := mapSet s.rooms roomCode room'
         conns := mapSet s.conns connId roomCode },
       [(Target.roomAll roomCode,
         Ev.userJoined nickname (members'.map Prod.snd)),
        (Target.conn connId,
         Ev.roomJoined roomCode false room.currentEpisode room.animeId
           room.videoState (members'.map Prod.snd) (sliceLast 50 room.chat))])

/-- The `videoAction` handler: resolves the room via `socket.roomCode`; if
there is no room or the origin is not the host, it returns silently.
Otherwise it replaces `room.videoState` wholesale by the action fields plus a
fresh `lastUpdate` and broadcasts the action to the room minus the origin. -/
def videoAction (s : ServerState) (connId : Nat) (action : VideoAction)
    (now : Nat) : ServerState × List Out :=
  match mapLookup s.conns connId with
  | none => (s, [])
  | some roomCode =>
    match mapLookup s.rooms roomCode with
    | none => (s, [])
    | some room =>
      if room.host = connId then
        let room' := { room with videoState :=
          { isPlaying := action.isPlaying
            currentTime := action.currentTime
            lastUpdate := now } }
        ({ s with rooms := mapSet s.rooms roomCode room' },
         [(Target.roomExcept roomCode connId, Ev.videoActionEv action)])
      else
        (s, [])

/-- The `changeEpisode` handler: same host gate as `videoAction`; on success
sets `currentEpisode` and `animeId` and broadcasts to the whole room,
origin included. -/
def changeEpisode (s : ServerState) (connId : Nat) (episodeId animeId : String) :
    ServerState × List Out :=
  match mapLookup s.conns connId with
  | none => (s, [])
  | some roomCode =>
    match mapLookup s.rooms roomCode with
    | none => (s, [])
    | some room =>
      if room.host = connId then
        let room' := { room with
          currentEpisode := some episodeId
          animeId := some animeId }
        ({ s with rooms := mapSet s.rooms roomCode room' },
         [(Target.roomAll roomCode, Ev.changeEpisodeEv episodeId animeId)])
      else
        (s, [])

/-- The `chatMessage` handler: silently ignores connections that are not a
member of a room; otherwise appends a fresh message (id from `uuidv4()`,
timestamp from `Date.now()`, `isHost` copied from the sender's member record),
truncates the log to the last 100 entries, and broadcasts to the whole room. -/
def chatMessage (s : ServerState) (connId : Nat) (message msgId : String)
    (now : Nat) : ServerState × List Out :=
  match mapLookup s.conns connId with
  | none => (s, [])
  | some roomCode =>
    match mapLookup s.rooms roomCode with
    | none => (s, [])
    | some room =>
      match mapLookup room.members connId with
      | none => (s, [])
      | some member =>
        let cm : ChatMessage :=
          { id := msgId
            nickname := member.nickname
            message := message
            timestamp := now
            isHost := member.isHost }
        let chat' := room.chat ++ [cm]
        let chat'' := if chat'.length > 100 then sliceLast 100 chat' else chat'
        let room' := { room with chat := chat'' }
        ({ s with rooms := mapSet s.rooms roomCode room' },
         [(Target.roomAll roomCode, Ev.chatMessageEv cm)])

/-- The `getRoomInfo` handler: looks the code up directly in the registry
(no membership check) and replies with members, episode ids and video state —
but no chat. -/
def getRoomInfo (s : ServerState) (connId : Nat) (roomCode : Nat) :
    ServerState × List Out :=
  match mapLookup s.rooms roomCode with
  | none => (s, [(Target.conn connId, Ev.errorMsg "Room not found")])
  | some room =>
    (s, [(Target.conn connId,
      Ev.roomInfo (room.members.map Prod.snd) room.currentEpisode
        room.animeId room.videoState)])

/-- The `disconnect` handler: resolves the socket's room, removes the member,
deletes the room when it became empty, otherwise fails the host over to the
first remaining member (flipping its `isHost` and broadcasting `newHost`)
when the host left, and always broadcasts `userLeft` in the non-empty case.
The binding of the dead connection is dropped from the state. -/
def disconnect (s : ServerState) (connId : Nat) : ServerState × List Out :=
  match mapLookup s.conns connId with
  | none => (s, [])
  | some roomCode =>
    match mapLookup s.rooms roomCode with
    | none => ({ s with conns := mapDelete s.conns connId }, [])
    | some room =>
      let member? := mapLookup room.members connId
      match mapDelete room.members connId with
      | [] =>
        ({ rooms := mapDelete s.rooms roomCode
           conns := mapDelete s.conns connId }, [])
      | (nhId, nhMem) :: rest =>
        if room.host = connId then
          let room' := { room with
            host := nhId
            members := (nhId, { nhMem with isHost := true }) :: rest }
          ({ rooms := mapSet s.rooms roomCode room'
             conns := mapDelete s.conns connId },
           [(Target.roomAll roomCode,
             Ev.newHost nhId nhMem.nickname (room'.members.map Prod.snd)),
            (Target.roomAll roomCode,
             Ev.userLeft (member?.map Member.nickname)
               (room'.members.map Prod.snd))])
        else
          let room' := { room with members := (nhId, nhMem) :: rest }
          ({ rooms := mapSet s.rooms roomCode room'
             conns := mapDelete s.conns connId },
           [(Target.roomAll roomCode,
             Ev.userLeft (member?.map Member.nickname)
               (room'.members.map Prod.snd))])

/-- One server step: some handler fires with some request data.  `rand`,
`now` and `msgId` model the environment (`Math.random()`, `Date.now()`,
`uuidv4()`). -/
inductive Step : ServerState → ServerState → Prop where
  | create (s : ServerState) (connId : Nat) (nickname : String) (rand now : Nat) :
      Step s (createRoom s connId nickname rand now).1
  | join (s : ServerState) (connId roomCode : Nat) (nickname : String) :
      Step s (joinRoom s connId roomCode nickname).1
  | video (s : ServerState) (connId : Nat) (action : VideoAction) (now : Nat) :
      Step s (videoAction s connId action now).1
  | episode (s : ServerState) (connId : Nat) (episodeId animeId : String) :
      Step s (changeEpisode s connId episodeId animeId).1
  | chat (s : ServerState) (connId : Nat) (message msgId : String) (now : Nat) :
      Step s (chatMessage s connId message msgId now).1
  | info (s : ServerState) (connId roomCode : Nat) :
      Step s (getRoomInfo s connId roomCode).1
  | disc (s : ServerState) (connId : Nat) :
      Step s (disconnect s connId).1

/-- States reachable from server start by any sequence of handler runs. -/
def Reachable (s : ServerState) : Prop :=
  Relation.ReflTransGen Step initState s

/-- One server step in which `createRoom` and `joinRoom` are only issued by
connections not currently bound to a room (the discipline the spec demands
via its `AlreadyInRoom` rejection; the source itself never enforces it). -/
inductive GStep : ServerState → ServerState → Prop where
  | create (s : ServerState) (connId : Nat) (nickname : String) (rand now : Nat)
      (hfree : mapLookup s.conns connId = none) :
      GStep s (createRoom s connId nickname rand now).1
  | join (s : ServerState) (connId roomCode : Nat) (nickname : String)
      (hfree : mapLookup s.conns connId = none) :
      GStep s (joinRoom s connId roomCode nickname).1
  | video (s : ServerState) (connId : Nat) (action : VideoAction) (now : Nat) :
      GStep s (videoAction s connId action now).1
  | episode (s : ServerState) (connId : Nat) (episodeId animeId : String) :
      GStep s (changeEpisode s connId episodeId animeId).1
  | chat (s : ServerState) (connId : Nat) (message msgId : String) (now : Nat) :
      GStep s (chatMessage s connId message msgId now).1
  | info (s : ServerState) (connId roomCode : Nat) :
      GStep s (getRoomInfo s connId roomCode).1
  | disc (s : ServerState) (connId : Nat) :
      GStep s (disconnect s connId).1

/-- States reachable from server start when no already-bound connection ever
issues `createRoom` or `joinRoom`. -/
def GReachable (s : ServerState) : Prop :=
  Relation.ReflTransGen GStep initState s

/-- Well-formedness of the registry and bindings: room keys are distinct;
every registered room is non-empty, has distinct member keys, and has its
host among its member keys with `isHost` set exactly on the host's entry;
and every member's connection is bound to that room's registry key. -/
structure ServerWF (s : ServerState) : Prop where
  roomsNodup : (s.rooms.map Prod.fst).Nodup
  membersNe : ∀ q ∈ s.rooms, q.2.members ≠ []
  membersNodup : ∀ q ∈ s.rooms, (q.2.members.map Prod.fst).Nodup
  hostMem : ∀ q ∈ s.rooms, q.2.host ∈ q.2.members.map Prod.fst
  hostIff : ∀ q ∈ s.rooms, ∀ p ∈ q.2.members, (p.2.isHost = true ↔ p.1 = q.2.host)
  connsBound : ∀ q ∈ s.rooms, ∀ p ∈ q.2.members, mapLookup s.conns p.1 = some q.1

/-- Capacity bounds: distinct room keys, at most 10 members per room and at
most 100 retained chat messages per room. -/
def BaseInv (s : ServerState) : Prop :=
  (s.rooms.map Prod.fst).Nodup ∧
  ∀ q ∈ s.rooms, q.2.members.length ≤ 10 ∧ q.2.chat.length ≤ 100

/-- Demo state: connection 1 ("Alice") has created room 10000
(random draw 0, clock 5). -/
def demoCreate : ServerState := (createRoom initState 1 "Alice" 0 5).1

/-- Demo state: connection 2 ("Bob") then joined room 10000. -/
def demoJoin : ServerState := (joinRoom demoCreate 2 10000 "Bob").1

/-- The room stored at code 10000 in `demoJoin`. -/
def demoRoom : Room :=
  { code := 10000, host := 1, hostNickname := "Alice",
    members := [(1, { nickname := "Alice", isHost := true }),
                (2, { nickname := "Bob", isHost := false })],
    currentEpisode := none, animeId := none,
    videoState := { isPlaying := false, currentTime := 0, lastUpdate := 5 },
    chat := [] }

/-- The host of room 10000 re-joining its own room (accepted by the code). -/
def hostRejoin : ServerState := (joinRoom demoCreate 1 10000 "Alice").1

/-- A second `createRoom` whose random draw collides with the live room. -/
def collide : ServerState := (createRoom demoCreate 2 "Eve" 0 7).1

/-- Two live rooms: connection 1 hosts 10000, connection 2 hosts 10001. -/
def twoRooms : ServerState := (createRoom demoCreate 2 "Eve" 1 6).1

/-- Connection 1, already in room 10000, joins room 10001 (not rejected). -/
def doubleJoin : ServerState := (joinRoom twoRooms 1 10001 "Alice").1

/-! ### Association-list lemmas -/

theorem mapLookup_set_self {β : Type} (l : List (Nat × β)) (k : Nat) (v : β) :
    mapLookup (mapSet l k v) k = some v := by
  induction l with
  | nil => simp [mapSet, mapLookup]
  | cons p rest ih =>
    obtain ⟨a, b⟩ := p
    by_cases h : a = k
    · simp [mapSet, h, mapLookup]
    · simp [mapSet, h, mapLookup, ih]

theorem mapLookup_set_ne {β : Type} (l : List (Nat × β)) (k k' : Nat) (v : β)
    (h : k' ≠ k) : mapLookup (mapSet l k v) k' = mapLookup l k' := by
  induction l with
  | nil => simp [mapSet, mapLookup, Ne.symm h]
  | cons p rest ih =>
    obtain ⟨a, b⟩ := p
    by_cases ha : a = k
    · subst ha
      simp [mapSet, mapLookup, Ne.symm h]
    · simp [mapSet, ha, mapLookup, ih]

theorem mapLookup_eq_none_iff {β : Type} (l : List (Nat × β)) (k : Nat) :
    mapLookup l k = none ↔ k ∉ l.map Prod.fst := by
  induction l with
  | nil => simp [mapLookup]
  | cons p rest ih =>
    obtain ⟨a, b⟩ := p
    by_cases h : a = k
    · simp [mapLookup, h]
    · simp [mapLookup, h, ih, Ne.symm h]

theorem mem_of_mapLookup_eq_some {β : Type} {l : List (Nat × β)} {k : Nat}
    {v : β} (h : mapLookup l k = some v) : (k, v) ∈ l := by
  induction l with
  | nil => simp [mapLookup] at h
  | cons p rest ih =>
    obtain ⟨a, b⟩ := p
    by_cases ha : a = k
    · subst ha
      simp [mapLookup] at h
      simp [h]
    · simp [mapLookup, ha] at h
      exact List.mem_cons_of_mem _ (ih h)

theorem mapLookup_isSome_of_mem {β : Type} {l : List (Nat × β)} {k : Nat}
    {v : β} (h : (k, v) ∈ l) : (mapLookup l k).isSome := by
  cases he : mapLookup l k with
  | some w => rfl
  | none =>
    exact absurd (List.mem_map_of_mem Prod.fst h)
      ((mapLookup_eq_none_iff l k).mp he)

theorem mapLookup_eq_some_of_mem_nodup {β : Type} {l : List (Nat × β)}
    {k : Nat} {v : β} (hnd : (l.map Prod.fst).Nodup) (h : (k, v) ∈ l) :
    mapLookup l k = some v := by
  induction l with
  | nil => simp at h
  | cons p rest ih =>
    obtain ⟨a, b⟩ := p
    simp only [List.map_cons, List.nodup_cons] at hnd
    rcases List.mem_cons.mp h with he | hm
    · rw [show a = k from congrArg Prod.fst he.symm]
      simp [mapLookup, show b = v from congrArg Prod.snd he.symm]
    · have hak : a ≠ k := by
        intro e
        exact hnd.1 (e ▸ List.mem_map_of_mem Prod.fst hm)
      simp [mapLookup, hak, ih hnd.2 hm]

theorem mapSet_append_of_none {β : Type} {l : List (Nat × β)} {k : Nat}
    (v : β) (h : mapLookup l k = none) : mapSet l k v = l ++ [(k, v)] := by
  induction l with
  | nil => simp [mapSet]
  | cons p rest ih =>
    obtain ⟨a, b⟩ := p
    by_cases ha : a = k
    · simp [mapLookup, ha] at h
    · simp [mapLookup, ha] at h
      simp [mapSet, ha, ih h]

theorem mapSet_length_le {β : Type} (l : List (Nat × β)) (k : Nat) (v : β) :
    (mapSet l k v).length ≤ l.length + 1 := by
  induction l with
  | nil => simp [mapSet]
  | cons p rest ih =>
    obtain ⟨a, b⟩ := p
    by_cases ha : a = k
    · simp [mapSet, ha]
    · simp only [mapSet, if_neg ha, List.length_cons]
      omega

theorem mem_mapSet_nodup {β : Type} {l : List (Nat × β)} {k : Nat} {v : β}
    {q : Nat × β} (hnd : (l.map Prod.fst).Nodup) (h : q ∈ mapSet l k v) :
    q = (k, v) ∨ (q ∈ l ∧ q.1 ≠ k) := by
  induction l with
  | nil =>
    simp [mapSet] at h
    exact Or.inl h
  | cons p rest ih =>
    obtain ⟨a, b⟩ := p
    simp only [List.map_cons, List.nodup_cons] at hnd
    by_cases ha : a = k
    · subst ha
      simp only [mapSet, if_pos rfl] at h
      rcases List.mem_cons.mp h with he | hm
      · exact Or.inl he
      · refine Or.inr ⟨List.mem_cons_of_mem _ hm, ?_⟩
        intro e
        exact hnd.1 (e ▸ List.mem_map_of_mem Prod.fst hm)
    · simp only [mapSet, if_neg ha] at h
      rcases List.mem_cons.mp h with he | hm
      · exact Or.inr ⟨by simp [he], by simp [he, ha]⟩
      · rcases ih hnd.2 hm with hkv | ⟨hmem, hne⟩
        · exact Or.inl hkv
        · exact Or.inr ⟨List.mem_cons_of_mem _ hmem, hne⟩

theorem keys_mapSet_nodup {β : Type} {l : List (Nat × β)} (k : Nat) (v : β)
    (hnd : (l.map Prod.fst).Nodup) : ((mapSet l k v).map Prod.fst).Nodup := by
  induction l with
  | nil => simp [mapSet]
  | cons p rest ih =>
    obtain ⟨a, b⟩ := p
    simp only [List.map_cons, List.nodup_cons] at hnd
    by_cases ha : a = k
    · subst ha
      simpa [mapSet] using hnd
    · simp only [mapSet, if_neg ha, List.map_cons, List.nodup_cons]
      refine ⟨?_, ih hnd.2⟩
      intro hmem
      rcases List.mem_map.mp hmem with ⟨q, hq, hq1⟩
      rcases mem_mapSet_nodup hnd.2 hq with he | ⟨hm, _⟩
      · exact ha (by rw [← hq1, he])
      · exact hnd.1 (hq1 ▸ List.mem_map_of_mem Prod.fst hm)

theorem mem_mapDelete {β : Type} {l : List (Nat × β)} {k : Nat}
    {q : Nat × β} (h : q ∈ mapDelete l k) : q ∈ l ∧ q.1 ≠ k := by
  induction l with
  | nil => simp [mapDelete] at h
  | cons p rest ih =>
    obtain ⟨a, b⟩ := p
    by_cases ha : a = k
    · simp only [mapDelete, if_pos ha] at h
      exact ⟨List.mem_cons_of_mem _ (ih h).1, (ih h).2⟩
    · simp only [mapDelete, if_neg ha] at h
      rcases List.mem_cons.mp h with he | hm
      · exact ⟨by simp [he], by simp [he, ha]⟩
      · exact ⟨List.mem_cons_of_mem _ (ih hm).1, (ih hm).2⟩

theorem keys_mapDelete_sublist {β : Type} (l : List (Nat × β)) (k : Nat) :
    List.Sublist ((mapDelete l k).map Prod.fst) (l.map Prod.fst) := by
  induction l with
  | nil => simp [mapDelete]
  | cons p rest ih =>
    obtain ⟨a, b⟩ := p
    by_cases ha : a = k
    · simp only [mapDelete, if_pos ha, List.map_cons]
      exact ih.cons _
    · simp only [mapDelete, if_neg ha, List.map_cons]
      exact ih.cons₂ _

theorem mapDelete_length_le {β : Type} (l : List (Nat × β)) (k : Nat) :
    (mapDelete l k).length ≤ l.length := by
  have h := List.Sublist.length_le (keys_mapDelete_sublist l k)
  simpa using h

theorem mapLookup_delete_self {β : Type} (l : List (Nat × β)) (k : Nat) :
    mapLookup (mapDelete l k) k = none := by
  rw [mapLookup_eq_none_iff]
  intro hmem
  rcases List.mem_map.mp hmem with ⟨q, hq, hq1⟩
  exact (mem_mapDelete hq).2 hq1

theorem mapLookup_delete_ne {β : Type} (l : List (Nat × β)) (k k' : Nat)
    (h : k' ≠ k) : mapLookup (mapDelete l k) k' = mapLookup l k' := by
  induction l with
  | nil => simp [mapDelete]
  | cons p rest ih =>
    obtain ⟨a, b⟩ := p
    by_cases ha : a = k
    · subst ha
      simp [mapDelete, mapLookup, Ne.symm h, ih]
    · simp [mapDelete, ha, mapLookup, ih]

theorem mem_keys_mapDelete {β : Type} {l : List (Nat × β)} {k a : Nat}
    (hmem : a ∈ l.map Prod.fst) (hne : a ≠ k) :
    a ∈ (mapDelete l k).map Prod.fst := by
  induction l with
  | nil => simp at hmem
  | cons p rest ih =>
    obtain ⟨c, b⟩ := p
    simp only [List.map_cons, List.mem_cons] at hmem
    by_cases hc : c = k
    · simp only [mapDelete, if_pos hc]
      rcases hmem with he | hm
      · exact absurd (he.trans hc) hne
      · exact ih hm
    · simp only [mapDelete, if_neg hc, List.map_cons, List.mem_cons]
      rcases hmem with he | hm
      · exact Or.inl he
      · exact Or.inr (ih hm)

theorem sliceLast_length_le {α : Type} (n : Nat) (l : List α) :
    (sliceLast n l).length ≤ n := by
  simp only [sliceLast, List.length_drop]
  omega

theorem sliceLast_suffix {α : Type} (n : Nat) (l : List α) :
    sliceLast n l <:+ l :=
  List.drop_suffix _ _

/-! ### Well-formedness lemmas -/

theorem serverWF_init : ServerWF initState := by
  refine ⟨?_, ?_, ?_, ?_, ?_, ?_⟩ <;> simp [initState]

/-- Replacing a registered room by one with the same members and host
preserves well-formedness. -/
theorem serverWF_set_room (s : ServerState) (roomCode : Nat) (room room' : Room)
    (hWF : ServerWF s) (hr : mapLookup s.rooms roomCode = some room)
    (hm : room'.members = room.members) (hh : room'.host = room.host) :
    ServerWF { s with rooms := mapSet s.rooms roomCode room' } := by
  have hroomMem : (roomCode, room) ∈ s.rooms := mem_of_mapLookup_eq_some hr
  constructor
  · exact keys_mapSet_nodup _ _ hWF.roomsNodup
  · intro q hq
    rcases mem_mapSet_nodup hWF.roomsNodup hq with h | ⟨hmem, _⟩
    · subst h
      simpa [hm] using hWF.membersNe _ hroomMem
    · exact hWF.membersNe _ hmem
  · intro q hq
    rcases mem_mapSet_nodup hWF.roomsNodup hq with h | ⟨hmem, _⟩
    · subst h
      simpa [hm] using hWF.membersNodup _ hroomMem
    · exact hWF.membersNodup _ hmem
  · intro q hq
    rcases mem_mapSet_nodup hWF.roomsNodup hq with h | ⟨hmem, _⟩
    · subst h
      simpa [hm, hh] using hWF.hostMem _ hroomMem
    · exact hWF.hostMem _ hmem
  · intro q hq
    rcases mem_mapSet_nodup hWF.roomsNodup hq with h | ⟨hmem, _⟩
    · subst h
      simp only [hm, hh]
      exact hWF.hostIff _ hroomMem
    · exact hWF.hostIff _ hmem
  · intro q hq
    rcases mem_mapSet_nodup hWF.roomsNodup hq with h | ⟨hmem, _⟩
    · subst h
      simp only [hm]
      exact hWF.connsBound _ hroomMem
    · exact hWF.connsBound _ hmem

theorem serverWF_videoAction (s : ServerState) (connId : Nat)
    (action : VideoAction) (now : Nat) (hWF : ServerWF s) :
    ServerWF (videoAction s connId action now).1 := by
  cases hc : mapLookup s.conns connId with
  | none =>
    simp only [videoAction, hc]
    exact hWF
  | some roomCode =>
    cases hr : mapLookup s.rooms roomCode with
    | none =>
      simp only [videoAction, hc, hr]
      exact hWF
    | some room =>
      by_cases hh : room.host = connId
      · simp only [videoAction, hc, hr, if_pos hh]
        exact serverWF_set_room s roomCode room _ hWF hr rfl rfl
      · simp only [videoAction, hc, hr, if_neg hh]
        exact hWF

theorem serverWF_changeEpisode (s : ServerState) (connId : Nat)
    (episodeId animeId : String) (hWF : ServerWF s) :
    ServerWF (changeEpisode s connId episodeId animeId).1 := by
  cases hc : mapLookup s.conns connId with
  | none =>
    simp only [changeEpisode, hc]
    exact hWF
  | some roomCode =>
    cases hr : mapLookup s.rooms roomCode with
    | none =>
      simp only [changeEpisode, hc, hr]
      exact hWF
    | some room =>
      by_cases hh : room.host = connId
      · simp only [changeEpisode, hc, hr, if_pos hh]
        exact serverWF_set_room s roomCode room _ hWF hr rfl rfl
      · simp only [changeEpisode, hc, hr, if_neg hh]
        exact hWF

theorem serverWF_chatMessage (s : ServerState) (connId : Nat)
    (message msgId : String) (now : Nat) (hWF : ServerWF s) :
    ServerWF (chatMessage s connId message msgId now).1 := by
  cases hc : mapLookup s.conns connId with
  | none =>
    simp only [chatMessage, hc]
    exact hWF
  | some roomCode =>
    cases hr : mapLookup s.rooms roomCode with
    | none =>
      simp only [chatMessage, hc, hr]
      exact hWF
    | some room =>
      cases hm : mapLookup room.members connId with
      | none =>
        simp only [chatMessage, hc, hr, hm]
        exact hWF
      | some member =>
        simp only [chatMessage, hc, hr, hm]
        exact serverWF_set_room s roomCode room _ hWF hr rfl rfl

theorem getRoomInfo_fst_eq (s : ServerState) (connId roomCode : Nat) :
    (getRoomInfo s connId roomCode).1 = s := by
  cases hr : mapLookup s.rooms roomCode with
  | none => simp only [getRoomInfo, hr]
  | some room => simp only [getRoomInfo, hr]

theorem serverWF_getRoomInfo (s : ServerState) (connId roomCode : Nat)
    (hWF : ServerWF s) : ServerWF (getRoomInfo s connId roomCode).1 := by
  rw [getRoomInfo_fst_eq]
  exact hWF

theorem serverWF_createRoom (s : ServerState) (connId : Nat) (nickname : String)
    (rand now : Nat) (hWF : ServerWF s)
    (hfree : mapLookup s.conns connId = none) :
    ServerWF (createRoom s connId nickname rand now).1 := by
  simp only [createRoom]
  constructor
  · exact keys_mapSet_nodup _ _ hWF.roomsNodup
  · intro q hq
    rcases mem_mapSet_nodup hWF.roomsNodup hq with h | ⟨hmem, _⟩
    · subst h
      simp
    · exact hWF.membersNe _ hmem
  · intro q hq
    rcases mem_mapSet_nodup hWF.roomsNodup hq with h | ⟨hmem, _⟩
    · subst h
      simp
    · exact hWF.membersNodup _ hmem
  · intro q hq
    rcases mem_mapSet_nodup hWF.roomsNodup hq with h | ⟨hmem, _⟩
    · subst h
      simp
    · exact hWF.hostMem _ hmem
  · intro q hq
    rcases mem_mapSet_nodup hWF.roomsNodup hq with h | ⟨hmem, _⟩
    · subst h
      intro p hp
      simp only [List.mem_singleton] at hp
      subst hp
      simp
    · exact hWF.hostIff _ hmem
  · intro q hq
    rcases mem_mapSet_nodup hWF.roomsNodup hq with h | ⟨hmem, _⟩
    · subst h
      intro p hp
      simp only [List.mem_singleton] at hp
      subst hp
      exact mapLookup_set_self _ _ _
    · intro p hp
      have hb := hWF.connsBound q hmem p hp
      by_cases hpc : p.1 = connId
      · rw [hpc, hfree] at hb
        exact Option.noConfusion hb
      · rw [mapLookup_set_ne s.conns connId p.1 _ hpc]
        exact hb

theorem serverWF_joinRoom (s : ServerState) (connId roomCode : Nat)
    (nickname : String) (hWF : ServerWF s)
    (hfree : mapLookup s.conns connId = none) :
    ServerWF (joinRoom s connId roomCode nickname).1 := by
  cases hr : mapLookup s.rooms roomCode with
  | none =>
    simp only [joinRoom, hr]
    exact hWF
  | some room =>
    by_cases hfull : room.members.length ≥ 10
    · simp only [joinRoom, hr, if_pos hfull]
      exact hWF
    · simp only [joinRoom, hr, if_neg hfull]
      have hroomMem : (roomCode, room) ∈ s.rooms := mem_of_mapLookup_eq_some hr
      have hndM : (room.members.map Prod.fst).Nodup := hWF.membersNodup _ hroomMem
      have hnotmem : mapLookup room.members connId = none := by
        rw [mapLookup_eq_none_iff]
        intro hk
        rcases List.mem_map.mp hk with ⟨p, hp, hp1⟩
        have hb := hWF.connsBound _ hroomMem p hp
        rw [hp1, hfree] at hb
        exact Option.noConfusion hb
      have hkfresh : connId ∉ room.members.map Prod.fst :=
        (mapLookup_eq_none_iff _ _).mp hnotmem
      have happend : mapSet room.members connId ⟨nickname, false⟩ =
          room.members ++ [(connId, ⟨nickname, false⟩)] :=
        mapSet_append_of_none _ hnotmem
      have hhost_ne : connId ≠ room.host := by
        intro e
        exact hkfresh (e ▸ hWF.hostMem _ hroomMem)
      constructor
      · exact keys_mapSet_nodup _ _ hWF.roomsNodup
      · intro q hq
        rcases mem_mapSet_nodup hWF.roomsNodup hq with h | ⟨hmem, _⟩
        · subst h
          simp [happend]
        · exact hWF.membersNe _ hmem
      · intro q hq
        rcases mem_mapSet_nodup hWF.roomsNodup hq with h | ⟨hmem, _⟩
        · subst h
          show ((mapSet room.members connId ⟨nickname, false⟩).map Prod.fst).Nodup
          rw [happend]
          simp only [List.map_append, List.map_cons, List.map_nil]
          refine List.Nodup.append hndM (List.nodup_singleton _) ?_
          intro a ha hb
          simp only [List.mem_singleton] at hb
          exact hkfresh (hb ▸ ha)
        · exact hWF.membersNodup _ hmem
      · intro q hq
        rcases mem_mapSet_nodup hWF.roomsNodup hq with h | ⟨hmem, _⟩
        · subst h
          show _ ∈ (mapSet room.members connId ⟨nickname, false⟩).map Prod.fst
          rw [happend]
          simp only [List.map_append, List.mem_append]
          exact Or.inl (hWF.hostMem _ hroomMem)
        · exact hWF.hostMem _ hmem
      · intro q hq
        rcases mem_mapSet_nodup hWF.roomsNodup hq with h | ⟨hmem, _⟩
        · subst h
          intro p hp
          have hp' : p ∈ room.members ++
              [(connId, ({ nickname := nickname, isHost := false } : Member))] := by
            rw [← happend]
            exact hp
          rcases List.mem_append.mp hp' with hpm | hps
          · exact hWF.hostIff _ hroomMem p hpm
          · simp only [List.mem_singleton] at hps
            subst hps
            simp [hhost_ne]
        · exact hWF.hostIff _ hmem
      · intro q hq
        rcases mem_mapSet_nodup hWF.roomsNodup hq with h | ⟨hmem, hne⟩
        · subst h
          intro p hp
          have hp' : p ∈ room.members ++
              [(connId, ({ nickname := nickname, isHost := false } : Member))] := by
            rw [← happend]
            exact hp
          rcases List.mem_append.mp hp' with hpm | hps
          · have hb := hWF.connsBound _ hroomMem p hpm
            have hpc : p.1 ≠ connId := by
              intro e
              exact hkfresh (e ▸ List.mem_map_of_mem Prod.fst hpm)
            rw [mapLookup_set_ne s.conns connId p.1 _ hpc]
            exact hb
          · simp only [List.mem_singleton] at hps
            subst hps
            exact mapLookup_set_self _ _ _
        · intro p hp
          have hb := hWF.connsBound q hmem p hp
          by_cases hpc : p.1 = connId
          · rw [hpc, hfree] at hb
            exact Option.noConfusion hb
          · rw [mapLookup_set_ne s.conns connId p.1 _ hpc]
            exact hb

theorem serverWF_disconnect (s : ServerState) (connId : Nat) (hWF : ServerWF s) :
    ServerWF (disconnect s connId).1 := by
  cases hc : mapLookup s.conns connId with
  | none =>
    simp only [disconnect, hc]
    exact hWF
  | some roomCode =>
    cases hr : mapLookup s.rooms roomCode with
    | none =>
      simp only [disconnect, hc, hr]
      refine ⟨hWF.roomsNodup, hWF.membersNe, hWF.membersNodup, hWF.hostMem,
        hWF.hostIff, ?_⟩
      intro q hq p hp
      have hb := hWF.connsBound q hq p hp
      by_cases hpc : p.1 = connId
      · rw [hpc, hc] at hb
        injection hb with h1
        have hsome := mapLookup_isSome_of_mem (show (q.1, q.2) ∈ s.rooms from hq)
        rw [← h1, hr] at hsome
        exact Bool.noConfusion hsome
      · rw [mapLookup_delete_ne s.conns connId p.1 hpc]
        exact hb
    | some room =>
      have hroomMem : (roomCode, room) ∈ s.rooms := mem_of_mapLookup_eq_some hr
      have hndM : (room.members.map Prod.fst).Nodup := hWF.membersNodup _ hroomMem
      cases hd : mapDelete room.members connId with
      | nil =>
        simp only [disconnect, hc, hr, hd]
        constructor
        · exact List.Nodup.sublist (keys_mapDelete_sublist s.rooms roomCode)
            hWF.roomsNodup
        · intro q hq
          exact hWF.membersNe _ (mem_mapDelete hq).1
        · intro q hq
          exact hWF.membersNodup _ (mem_mapDelete hq).1
        · intro q hq
          exact hWF.hostMem _ (mem_mapDelete hq).1
        · intro q hq
          exact hWF.hostIff _ (mem_mapDelete hq).1
        · intro q hq p hp
          have hqm := mem_mapDelete hq
          have hb := hWF.connsBound q hqm.1 p hp
          by_cases hpc : p.1 = connId
          · rw [hpc, hc] at hb
            injection hb with h1
            exact absurd h1.symm hqm.2
          · rw [mapLookup_delete_ne s.conns connId p.1 hpc]
            exact hb
      | cons nh rest =>
        obtain ⟨nhId, nhMem⟩ := nh
        have hdmem : ∀ p ∈ (nhId, nhMem) :: rest,
            p ∈ room.members ∧ p.1 ≠ connId := by
          intro p hp
          rw [← hd] at hp
          exact mem_mapDelete hp
        have hdnodup : (((nhId, nhMem) :: rest).map Prod.fst).Nodup := by
          rw [← hd]
          exact List.Nodup.sublist (keys_mapDelete_sublist room.members connId) hndM
        have hdnodup' : (nhId :: rest.map Prod.fst).Nodup := by
          simpa using hdnodup
        have hnh_notin : nhId ∉ rest.map Prod.fst :=
          (List.nodup_cons.mp hdnodup').1
        by_cases hh : room.host = connId
        · simp only [disconnect, hc, hr, hd, if_pos hh]
          constructor
          · exact keys_mapSet_nodup _ _ hWF.roomsNodup
          · intro q hq
            rcases mem_mapSet_nodup hWF.roomsNodup hq with h | ⟨hmem, _⟩
            · subst h
              simp
            · exact hWF.membersNe _ hmem
          · intro q hq
            rcases mem_mapSet_nodup hWF.roomsNodup hq with h | ⟨hmem, _⟩
            · subst h
              simpa using hdnodup'
            · exact hWF.membersNodup _ hmem
          · intro q hq
            rcases mem_mapSet_nodup hWF.roomsNodup hq with h | ⟨hmem, _⟩
            · subst h
              simp
            · exact hWF.hostMem _ hmem
          · intro q hq
            rcases mem_mapSet_nodup hWF.roomsNodup hq with h | ⟨hmem, _⟩
            · subst h
              intro p hp
              rcases List.mem_cons.mp hp with he | hrest
              · subst he
                simp
              · have hpm := hdmem p (List.mem_cons_of_mem _ hrest)
                have hfalse : p.2.isHost = false := by
                  have hiff := hWF.hostIff _ hroomMem p hpm.1
                  rw [hh] at hiff
                  simpa [hpm.2] using hiff
                have hne_nh : p.1 ≠ nhId := by
                  intro e
                  exact hnh_notin (e ▸ List.mem_map_of_mem Prod.fst hrest)
                simp [hfalse, hne_nh]
            · exact hWF.hostIff _ hmem
          · intro q hq
            rcases mem_mapSet_nodup hWF.roomsNodup hq with h | ⟨hmem, hne⟩
            · subst h
              intro p hp
              rcases List.mem_cons.mp hp with he | hrest
              · subst he
                have hm0 := hdmem (nhId, nhMem) (List.mem_cons_self _ _)
                have hb := hWF.connsBound _ hroomMem _ hm0.1
                rw [show ((nhId, { nhMem with isHost := true }) : Nat × Member).1
                    = nhId from rfl]
                rw [mapLookup_delete_ne s.conns connId nhId hm0.2]
                exact hb
              · have hpm := hdmem p (List.mem_cons_of_mem _ hrest)
                have hb := hWF.connsBound _ hroomMem p hpm.1
                rw [mapLookup_delete_ne s.conns connId p.1 hpm.2]
                exact hb
            · intro p hp
              have hb := hWF.connsBound q hmem p hp
              by_cases hpc : p.1 = connId
              · rw [hpc, hc] at hb
                injection hb with h1
                exact absurd h1.symm hne
              · rw [mapLookup_delete_ne s.conns connId p.1 hpc]
                exact hb
        · simp only [disconnect, hc, hr, hd, if_neg hh]
          constructor
          · exact keys_mapSet_nodup _ _ hWF.roomsNodup
          · intro q hq
            rcases mem_mapSet_nodup hWF.roomsNodup hq with h | ⟨hmem, _⟩
            · subst h
              simp
            · exact hWF.membersNe _ hmem
          · intro q hq
            rcases mem_mapSet_nodup hWF.roomsNodup hq with h | ⟨hmem, _⟩
            · subst h
              exact hdnodup
            · exact hWF.membersNodup _ hmem
          · intro q hq
            rcases mem_mapSet_nodup hWF.roomsNodup hq with h | ⟨hmem, _⟩
            · subst h
              have hmem' := mem_keys_mapDelete (hWF.hostMem _ hroomMem) hh
              rw [hd] at hmem'
              exact hmem'
            · exact hWF.hostMem _ hmem
          · intro q hq
            rcases mem_mapSet_nodup hWF.roomsNodup hq with h | ⟨hmem, _⟩
            · subst h
              intro p hp
              exact hWF.hostIff _ hroomMem p (hdmem p hp).1
            · exact hWF.hostIff _ hmem
          · intro q hq
            rcases mem_mapSet_nodup hWF.roomsNodup hq with h | ⟨hmem, hne⟩
            · subst h
              intro p hp
              have hpm := hdmem p hp
              have hb := hWF.connsBound _ hroomMem p hpm.1
              rw [mapLookup_delete_ne s.conns connId p.1 hpm.2]
              exact hb
            · intro p hp
              have hb := hWF.connsBound q hmem p hp
              by_cases hpc : p.1 = connId
              · rw [hpc, hc] at hb
                injection hb with h1
                exact absurd h1.symm hne
              · rw [mapLookup_delete_ne s.conns connId p.1 hpc]
                exact hb

/-- Every guarded step preserves well-formedness. -/
theorem gStep_serverWF {s t : ServerState} (h : GStep s t) (hWF : ServerWF s) :
    ServerWF t := by
  cases h with
  | create connId nickname rand now hfree =>
    exact serverWF_createRoom s connId nickname rand now hWF hfree
  | join connId roomCode nickname hfree =>
    exact serverWF_joinRoom s connId roomCode nickname hWF hfree
  | video connId action now =>
    exact serverWF_videoAction s connId action now hWF
  | episode connId episodeId animeId =>
    exact serverWF_changeEpisode s connId episodeId animeId hWF
  | chat connId message msgId now =>
    exact serverWF_chatMessage s connId message msgId now hWF
  | info connId roomCode =>
    exact serverWF_getRoomInfo s connId roomCode hWF
  | disc connId =>
    exact serverWF_disconnect s connId hWF

/-- Every state reachable under the at-most-one-room discipline is
well-formed. -/
theorem gReachable_serverWF {s : ServerState} (h : GReachable s) : ServerWF s := by
  induction h with
  | refl => exact serverWF_init
  | tail _ hstep ih => exact gStep_serverWF hstep ih

theorem baseInv_init : BaseInv initState := by
  constructor <;> simp [initState]

/-- The chat-append-then-truncate step keeps the log within 100 entries. -/
theorem chatTrunc_length_le (l : List ChatMessage) (cm : ChatMessage) :
    (if (l ++ [cm]).length > 100 then sliceLast 100 (l ++ [cm])
     else l ++ [cm]).length ≤ 100 := by
  by_cases hlong : (l ++ [cm]).length > 100
  · simp only [if_pos hlong]
    exact sliceLast_length_le _ _
  · simp only [if_neg hlong]
    omega

/-- Every handler run (no discipline assumed) preserves the capacity
bounds. -/
theorem step_baseInv {s t : ServerState} (h : Step s t) (hI : BaseInv s) :
    BaseInv t := by
  obtain ⟨hnd, hrooms⟩ := hI
  cases h with
  | create connId nickname rand now =>
    simp only [createRoom]
    refine ⟨keys_mapSet_nodup _ _ hnd, ?_⟩
    intro q hq
    rcases mem_mapSet_nodup hnd hq with h | ⟨hmem, _⟩
    · subst h
      simp
    · exact hrooms _ hmem
  | join connId roomCode nickname =>
    cases hr : mapLookup s.rooms roomCode with
    | none =>
      simp only [joinRoom, hr]
      exact ⟨hnd, hrooms⟩
    | some room =>
      by_cases hfull : room.members.length ≥ 10
      · simp only [joinRoom, hr, if_pos hfull]
        exact ⟨hnd, hrooms⟩
      · simp only [joinRoom, hr, if_neg hfull]
        refine ⟨keys_mapSet_nodup _ _ hnd, ?_⟩
        intro q hq
        rcases mem_mapSet_nodup hnd hq with h | ⟨hmem, _⟩
        · subst h
          refine ⟨?_, (hrooms _ (mem_of_mapLookup_eq_some hr)).2⟩
          have h1 := mapSet_length_le room.members connId
            { nickname := nickname, isHost := false }
          have h2 : room.members.length < 10 := Nat.lt_of_not_le hfull
          simpa using Nat.le_trans h1 (by omega)
        · exact hrooms _ hmem
  | video connId action now =>
    cases hc : mapLookup s.conns connId with
    | none =>
      simp only [videoAction, hc]
      exact ⟨hnd, hrooms⟩
    | some roomCode =>
      cases hr : mapLookup s.rooms roomCode with
      | none =>
        simp only [videoAction, hc, hr]
        exact ⟨hnd, hrooms⟩
      | some room =>
        by_cases hh : room.host = connId
        · simp only [videoAction, hc, hr, if_pos hh]
          refine ⟨keys_mapSet_nodup _ _ hnd, ?_⟩
          intro q hq
          rcases mem_mapSet_nodup hnd hq with h | ⟨hmem, _⟩
          · subst h
            exact hrooms (roomCode, room) (mem_of_mapLookup_eq_some hr)
          · exact hrooms _ hmem
        · simp only [videoAction, hc, hr, if_neg hh]
          exact ⟨hnd, hrooms⟩
  | episode connId episodeId animeId =>
    cases hc : mapLookup s.conns connId with
    | none =>
      simp only [changeEpisode, hc]
      exact ⟨hnd, hrooms⟩
    | some roomCode =>
      cases hr : mapLookup s.rooms roomCode with
      | none =>
        simp only [changeEpisode, hc, hr]
        exact ⟨hnd, hrooms⟩
      | some room =>
        by_cases hh : room.host = connId
        · simp only [changeEpisode, hc, hr, if_pos hh]
          refine ⟨keys_mapSet_nodup _ _ hnd, ?_⟩
          intro q hq
          rcases mem_mapSet_nodup hnd hq with h | ⟨hmem, _⟩
          · subst h
            exact hrooms (roomCode, room) (mem_of_mapLookup_eq_some hr)
          · exact hrooms _ hmem
        · simp only [changeEpisode, hc, hr, if_neg hh]
          exact ⟨hnd, hrooms⟩
  | chat connId message msgId now =>
    cases hc : mapLookup s.conns connId with
    | none =>
      simp only [chatMessage, hc]
      exact ⟨hnd, hrooms⟩
    | some roomCode =>
      cases hr : mapLookup s.rooms roomCode with
      | none =>
        simp only [chatMessage, hc, hr]
        exact ⟨hnd, hrooms⟩
      | some room =>
        cases hm : mapLookup room.members connId with
        | none =>
          simp only [chatMessage, hc, hr, hm]
          exact ⟨hnd, hrooms⟩
        | some member =>
          simp only [chatMessage, hc, hr, hm]
          refine ⟨keys_mapSet_nodup _ _ hnd, ?_⟩
          intro q hq
          rcases mem_mapSet_nodup hnd hq with h | ⟨hmem, _⟩
          · subst h
            refine ⟨(hrooms (roomCode, room) (mem_of_mapLookup_eq_some hr)).1, ?_⟩
            exact chatTrunc_length_le room.chat _
          · exact hrooms _ hmem
  | info connId roomCode =>
    rw [getRoomInfo_fst_eq]
    exact ⟨hnd, hrooms⟩
  | disc connId =>
    cases hc : mapLookup s.conns connId with
    | none =>
      simp only [disconnect, hc]
      exact ⟨hnd, hrooms⟩
    | some roomCode =>
      cases hr : mapLookup s.rooms roomCode with
      | none =>
        simp only [disconnect, hc, hr]
        exact ⟨hnd, hrooms⟩
      | some room =>
        have hlen : (mapDelete room.members connId).length ≤ room.members.length :=
          mapDelete_length_le _ _
        have hroom10 : room.members.length ≤ 10 ∧ room.chat.length ≤ 100 :=
          hrooms (roomCode, room) (mem_of_mapLookup_eq_some hr)
        cases hd : mapDelete room.members connId with
        | nil =>
          simp only [disconnect, hc, hr, hd]
          refine ⟨List.Nodup.sublist (keys_mapDelete_sublist s.rooms roomCode) hnd, ?_⟩
          intro q hq
          exact hrooms _ (mem_mapDelete hq).1
        | cons nh rest =>
          obtain ⟨nhId, nhMem⟩ := nh
          rw [hd] at hlen
          by_cases hh : room.host = connId
          · simp only [disconnect, hc, hr, hd, if_pos hh]
            refine ⟨keys_mapSet_nodup _ _ hnd, ?_⟩
            intro q hq
            rcases mem_mapSet_nodup hnd hq with h | ⟨hmem, _⟩
            · subst h
              refine ⟨?_, hroom10.2⟩
              simp only [List.length_cons] at hlen ⊢
              omega
            · exact hrooms _ hmem
          · simp only [disconnect, hc, hr, hd, if_neg hh]
            refine ⟨keys_mapSet_nodup _ _ hnd, ?_⟩
            intro q hq
            rcases mem_mapSet_nodup hnd hq with h | ⟨hmem, _⟩
            · subst h
              refine ⟨?_, hroom10.2⟩
              simp only [List.length_cons] at hlen ⊢
              omega
            · exact hrooms _ hmem

/-- Every reachable state satisfies the capacity bounds. -/
theorem reachable_baseInv {s : ServerState} (h : Reachable s) : BaseInv s := by
  induction h with
  | refl => exact baseInv_init
  | tail _ hstep ih => exact step_baseInv hstep ih

/-- In a duplicate-free member list whose `isHost` flag marks exactly the
entries keyed by `host`, with `host` present, the `isHost` filter is exactly
the host entry. -/
theorem hostFilter_eq (l : List (Nat × Member)) (host : Nat)
    (hnd : (l.map Prod.fst).Nodup) (hmem : host ∈ l.map Prod.fst)
    (hiff : ∀ p ∈ l, p.2.isHost = true ↔ p.1 = host) :
    (l.filter (fun p => p.2.isHost)).map Prod.fst = [host] := by
  induction l with
  | nil => simp at hmem
  | cons p rest ih =>
    obtain ⟨a, m⟩ := p
    simp only [List.map_cons, List.nodup_cons] at hnd
    by_cases ha : a = host
    · subst ha
      have hm_true : m.isHost = true :=
        (hiff (a, m) (List.mem_cons_self _ _)).mpr rfl
      have hrest_empty : rest.filter (fun p => p.2.isHost) = [] := by
        rw [List.filter_eq_nil_iff]
        intro q hq hq_true
        have hq1 : q.1 = a := (hiff q (List.mem_cons_of_mem _ hq)).mp
          (by simpa using hq_true)
        exact hnd.1 (hq1 ▸ List.mem_map_of_mem Prod.fst hq)
      simp [List.filter_cons, hm_true, hrest_empty]
    · have hm_false : m.isHost = false := by
        have hif := hiff (a, m) (List.mem_cons_self _ _)
        simpa [ha] using hif
      have hmem' : host ∈ rest.map Prod.fst := by
        simp only [List.map_cons, List.mem_cons] at hmem
        rcases hmem with he | hm'
        · exact absurd he.symm ha
        · exact hm'
      rw [List.filter_cons]
      simp only [hm_false]
      simpa using ih hnd.2 hmem' (fun p hp => hiff p (List.mem_cons_of_mem _ hp))

/-- The chat-append-then-truncate step yields a suffix of the appended log. -/
theorem chatTrunc_suffix (l : List ChatMessage) (cm : ChatMessage) :
    (if (l ++ [cm]).length > 100 then sliceLast 100 (l ++ [cm])
     else l ++ [cm]) <:+ l ++ [cm] := by
  by_cases hlong : (l ++ [cm]).length > 100
  · simp only [if_pos hlong]
    exact sliceLast_suffix _ _
  · simp only [if_neg hlong]
    exact List.suffix_refl _

theorem reachable_demoJoin : Reachable demoJoin :=
  Relation.ReflTransGen.tail
    (Relation.ReflTransGen.single (Step.create initState 1 "Alice" 0 5))
    (Step.join demoCreate 2 10000 "Bob")

theorem gReachable_demoJoin : GReachable demoJoin :=
  Relation.ReflTransGen.tail
    (Relation.ReflTransGen.single (GStep.create initState 1 "Alice" 0 5 rfl))
    (GStep.join demoCreate 2 10000 "Bob" rfl)

/-! ### The claims -/

/-- Claim C1: the specified `createRoom` retries colliding codes and fails
with `CapacityExhausted` when the code space is saturated.  The code does
neither: evaluated at a colliding random draw, the second `createRoom`
silently replaces connection 1's live room 10000 with connection 2's new
room (the host of the surviving room at code 10000 changes from 1 to 2, the
registry still holds a single room, and the reply is a plain success). -/
theorem C1_collision_overwrite :
    generateRoomCode 0 = 10000 ∧
    (mapLookup demoCreate.rooms 10000).map Room.host = some 1 ∧
    (createRoom demoCreate 2 "Eve" 0 7).2 =
      [(Target.conn 2, Ev.roomCreated 10000 true
        [{ nickname := "Eve", isHost := true }])] ∧
    (mapLookup collide.rooms 10000).map Room.host = some 2 ∧
    collide.rooms.length = 1 :=
  ⟨rfl, rfl, rfl, rfl, rfl⟩

/-- Claim C2 (amended): in every state reachable while no already-bound
connection issues `createRoom`/`joinRoom`, every registered room has exactly
one member entry with `isHost = true`, and its connection id is the room's
host id. -/
theorem C2_unique_host (s : ServerState) (hs : GReachable s) (code : Nat)
    (room : Room) (hr : mapLookup s.rooms code = some room) :
    (room.members.filter (fun p => p.2.isHost)).map Prod.fst = [room.host] ∧
    ∀ p ∈ room.members, (p.2.isHost = true ↔ p.1 = room.host) := by
  have hWF := gReachable_serverWF hs
  have hm : (code, room) ∈ s.rooms := mem_of_mapLookup_eq_some hr
  exact ⟨hostFilter_eq _ _ (hWF.membersNodup _ hm) (hWF.hostMem _ hm)
    (hWF.hostIff _ hm), hWF.hostIff _ hm⟩

/-- Witness for C2 at the two-member demo room. -/
theorem C2_unique_host_witness :
    (demoRoom.members.filter (fun p => p.2.isHost)).map Prod.fst =
      [demoRoom.host] ∧
    ∀ p ∈ demoRoom.members, (p.2.isHost = true ↔ p.1 = demoRoom.host) :=
  C2_unique_host demoJoin gReachable_demoJoin 10000 demoRoom rfl

/-- Counterexample to C2 as stated: under the code's actual semantics the
host may re-join its own room, and the `members.set(socket.id, {isHost:
false})` overwrite leaves a reachable one-member room with no host-flagged
member at all. -/
theorem C2_host_rejoin_counterexample :
    Reachable hostRejoin ∧
    mapLookup hostRejoin.rooms 10000 = some
      { code := 10000, host := 1, hostNickname := "Alice",
        members := [(1, { nickname := "Alice", isHost := false })],
        currentEpisode := none, animeId := none,
        videoState := { isPlaying := false, currentTime := 0, lastUpdate := 5 },
        chat := [] } ∧
    ([(1, ({ nickname := "Alice", isHost := false } : Member))].filter
      (fun p => p.2.isHost)).map Prod.fst = ([] : List Nat) := by
  refine ⟨?_, rfl, rfl⟩
  exact Relation.ReflTransGen.tail
    (Relation.ReflTransGen.single (Step.create initState 1 "Alice" 0 5))
    (Step.join demoCreate 1 10000 "Alice")

/-- Claim C3: a `joinRoom` from a connection already bound to a room should
be rejected with `AlreadyInRoom`.  The code has no such check: connection 1,
already in room 10000, joins 10001 with full success events, stays in room
10000's member map, becomes a member of 10001, and its binding is silently
replaced. -/
theorem C3_double_join :
    mapLookup twoRooms.conns 1 = some 10000 ∧
    (joinRoom twoRooms 1 10001 "Alice").2 =
      [(Target.roomAll 10001, Ev.userJoined "Alice"
         [{ nickname := "Eve", isHost := true },
          { nickname := "Alice", isHost := false }]),
       (Target.conn 1, Ev.roomJoined 10001 false none none
         { isPlaying := false, currentTime := 0, lastUpdate := 6 }
         [{ nickname := "Eve", isHost := true },
          { nickname := "Alice", isHost := false }] [])] ∧
    (mapLookup doubleJoin.rooms 10000).map (fun r => r.members.map Prod.fst) =
      some [1] ∧
    (mapLookup doubleJoin.rooms 10001).map (fun r => r.members.map Prod.fst) =
      some [2, 1] ∧
    mapLookup doubleJoin.conns 1 = some 10001 :=
  ⟨rfl, rfl, rfl, rfl, rfl⟩

/-- Claim C4: disconnecting a bound connection removes its member entry; an
emptied room is deleted from the registry; otherwise, when the host left,
the first-inserted remaining member gets `isHost := true` and becomes the
room's host, with `newHost` broadcast before `userLeft`; `userLeft` is
broadcast in every non-empty branch. -/
theorem C4_disconnect_spec (s : ServerState) (connId roomCode : Nat)
    (room : Room) (hc : mapLookup s.conns connId = some roomCode)
    (hr : mapLookup s.rooms roomCode = some room) :
    (∀ room', mapLookup (disconnect s connId).1.rooms roomCode = some room' →
      mapLookup room'.members connId = none) ∧
    (mapDelete room.members connId = [] →
      mapLookup (disconnect s connId).1.rooms roomCode = none) ∧
    (∀ nhId nhMem rest, mapDelete room.members connId = (nhId, nhMem) :: rest →
      room.host = connId →
      mapLookup (disconnect s connId).1.rooms roomCode = some
        { room with
          host := nhId,
          members := (nhId, { nhMem with isHost := true }) :: rest } ∧
      (disconnect s connId).2 =
        [(Target.roomAll roomCode, Ev.newHost nhId nhMem.nickname
           (((nhId, { nhMem with isHost := true }) :: rest).map Prod.snd)),
         (Target.roomAll roomCode, Ev.userLeft
           ((mapLookup room.members connId).map Member.nickname)
           (((nhId, { nhMem with isHost := true }) :: rest).map Prod.snd))]) ∧
    (∀ nhId nhMem rest, mapDelete room.members connId = (nhId, nhMem) :: rest →
      room.host ≠ connId →
      mapLookup (disconnect s connId).1.rooms roomCode = some
        { room with members := (nhId, nhMem) :: rest } ∧
      (disconnect s connId).2 =
        [(Target.roomAll roomCode, Ev.userLeft
           ((mapLookup room.members connId).map Member.nickname)
           (((nhId, nhMem) :: rest).map Prod.snd))]) := by
  refine ⟨?_, ?_, ?_, ?_⟩
  · intro room' hlook
    cases hd : mapDelete room.members connId with
    | nil =>
      simp only [disconnect, hc, hr, hd] at hlook
      rw [mapLookup_delete_self] at hlook
      exact Option.noConfusion hlook
    | cons nh rest =>
      obtain ⟨nhId, nhMem⟩ := nh
      have hm0 : (nhId, nhMem) ∈ mapDelete room.members connId := by
        rw [hd]
        exact List.mem_cons_self _ _
      have hkeyfree : ∀ x : Member,
          mapLookup ((nhId, x) :: rest) connId = none := by
        intro x
        rw [mapLookup_eq_none_iff]
        intro hmemk
        simp only [List.map_cons, List.mem_cons] at hmemk
        rcases hmemk with he | hm'
        · exact (mem_mapDelete hm0).2 he.symm
        · rcases List.mem_map.mp hm' with ⟨q, hq, hq1⟩
          have hq' : q ∈ mapDelete room.members connId := by
            rw [hd]
            exact List.mem_cons_of_mem _ hq
          exact (mem_mapDelete hq').2 hq1
      by_cases hh : room.host = connId
      · simp only [disconnect, hc, hr, hd, if_pos hh] at hlook
        rw [mapLookup_set_self] at hlook
        injection hlook with he
        rw [← he]
        exact hkeyfree _
      · simp only [disconnect, hc, hr, hd, if_neg hh] at hlook
        rw [mapLookup_set_self] at hlook
        injection hlook with he
        rw [← he]
        exact hkeyfree _
  · intro hdnil
    simp only [disconnect, hc, hr, hdnil]
    exact mapLookup_delete_self _ _
  · intro nhId nhMem rest hcons hh
    simp only [disconnect, hc, hr, hcons, if_pos hh]
    exact ⟨mapLookup_set_self _ _ _, trivial⟩
  · intro nhId nhMem rest hcons hh
    simp only [disconnect, hc, hr, hcons, if_neg hh]
    exact ⟨mapLookup_set_self _ _ _, trivial⟩

/-- Witness for C4: Alice (host) disconnects from the demo room; Bob, the
first remaining member, is failed over to host and both events fire. -/
theorem C4_disconnect_spec_witness :
    mapLookup (disconnect demoJoin 1).1.rooms 10000 = some
      { demoRoom with
        host := 2,
        members := [(2, { nickname := "Bob", isHost := true })] } ∧
    (disconnect demoJoin 1).2 =
      [(Target.roomAll 10000,
        Ev.newHost 2 "Bob" [{ nickname := "Bob", isHost := true }]),
       (Target.roomAll 10000,
        Ev.userLeft (some "Alice") [{ nickname := "Bob", isHost := true }])] := by
  have h := (C4_disconnect_spec demoJoin 1 10000 demoRoom rfl rfl).2.2.1 2
    { nickname := "Bob", isHost := false } [] rfl rfl
  exact ⟨h.1, h.2⟩

/-- Claim C5: in every reachable state the retained chat never exceeds 100
messages; every `roomJoined` reply carries at most 50 messages which are a
suffix (the most recent) of the retained log; and a `chatMessage` append
truncates to a suffix of the old log plus the new message (dropping oldest
entries). -/
theorem C5_chat_bounds (s : ServerState) (hs : Reachable s) :
    (∀ code room, mapLookup s.rooms code = some room →
      room.chat.length ≤ 100) ∧
    (∀ connId roomCode nickname room tgt rc hostFlag ce ai vs ms ch,
      mapLookup s.rooms roomCode = some room →
      (tgt, Ev.roomJoined rc hostFlag ce ai vs ms ch) ∈
        (joinRoom s connId roomCode nickname).2 →
      ch.length ≤ 50 ∧ ch <:+ room.chat) ∧
    (∀ connId message msgId now roomCode room member room',
      mapLookup s.conns connId = some roomCode →
      mapLookup s.rooms roomCode = some room →
      mapLookup room.members connId = some member →
      mapLookup (chatMessage s connId message msgId now).1.rooms roomCode =
        some room' →
      room'.chat <:+ room.chat ++
        [{ id := msgId, nickname := member.nickname, message := message,
           timestamp := now, isHost := member.isHost }]) := by
  refine ⟨?_, ?_, ?_⟩
  · intro code room h
    exact ((reachable_baseInv hs).2 (code, room) (mem_of_mapLookup_eq_some h)).2
  · intro connId roomCode nickname room tgt rc hostFlag ce ai vs ms ch hroom hmem
    by_cases hfull : room.members.length ≥ 10
    · simp only [joinRoom, hroom, if_pos hfull, List.mem_singleton] at hmem
      exact absurd (congrArg Prod.snd hmem) (by simp)
    · simp only [joinRoom, hroom, if_neg hfull, List.mem_cons,
        List.not_mem_nil, or_false] at hmem
      rcases hmem with h | h
      · exact absurd (congrArg Prod.snd h) (by simp)
      · have h2 := congrArg Prod.snd h
        injection h2 with e1 e2 e3 e4 e5 e6 e7
        rw [e7]
        exact ⟨sliceLast_length_le _ _, sliceLast_suffix _ _⟩
  · intro connId message msgId now roomCode room member room' hc hroom hm hlook
    simp only [chatMessage, hc, hroom, hm] at hlook
    rw [mapLookup_set_self] at hlook
    injection hlook with he
    rw [← he]
    exact chatTrunc_suffix room.chat _

/-- Witness for C5 at the demo room (empty chat). -/
theorem C5_chat_bounds_witness : demoRoom.chat.length ≤ 100 :=
  (C5_chat_bounds demoJoin reachable_demoJoin).1 10000 demoRoom rfl

/-- Claim C6: in every reachable state no room has more than 10 members, and
a join against a room that already holds 10 members returns exactly a
"Room is full" error to the requester with the server state unchanged. -/
theorem C6_capacity (s : ServerState) (hs : Reachable s) :
    (∀ code room, mapLookup s.rooms code = some room →
      room.members.length ≤ 10) ∧
    (∀ connId roomCode nickname room, mapLookup s.rooms roomCode = some room →
      room.members.length = 10 →
      joinRoom s connId roomCode nickname =
        (s, [(Target.conn connId, Ev.errorMsg "Room is full")])) := by
  constructor
  · intro code room h
    exact ((reachable_baseInv hs).2 (code, room) (mem_of_mapLookup_eq_some h)).1
  · intro connId roomCode nickname room h h10
    simp only [joinRoom, h, if_pos (show room.members.length ≥ 10 by omega)]

/-- Witness for C6 at the demo room. -/
theorem C6_capacity_witness : demoRoom.members.length ≤ 10 :=
  (C6_capacity demoJoin reachable_demoJoin).1 10000 demoRoom rfl

/-- Claim C7: a `videoAction` whose origin has no resolved room, or is not
the host of its resolved room, is silently dropped: no event of any kind is
emitted and the server state (including the room's `videoState`) is
untouched. -/
theorem C7_videoAction_nonhost (s : ServerState) (connId : Nat)
    (action : VideoAction) (now : Nat)
    (h : ∀ roomCode room, mapLookup s.conns connId = some roomCode →
      mapLookup s.rooms roomCode = some room → room.host ≠ connId) :
    videoAction s connId action now = (s, []) := by
  cases hc : mapLookup s.conns connId with
  | none => simp only [videoAction, hc]
  | some roomCode =>
    cases hr : mapLookup s.rooms roomCode with
    | none => simp only [videoAction, hc, hr]
    | some room => simp only [videoAction, hc, hr, if_neg (h roomCode room hc hr)]

/-- Witness for C7: Bob (not host) sends a video action; nothing happens. -/
theorem C7_videoAction_nonhost_witness :
    videoAction demoJoin 2 { isPlaying := true, currentTime := 42 } 9 =
      (demoJoin, []) := by
  apply C7_videoAction_nonhost
  intro roomCode room h1 h2
  rw [show mapLookup demoJoin.conns 2 = some 10000 from rfl] at h1
  injection h1 with h1
  subst h1
  rw [show mapLookup demoJoin.rooms 10000 = some demoRoom from rfl] at h2
  injection h2 with h2
  subst h2
  decide

/-- Claim C8: a host `videoAction` replaces the room's `videoState` wholesale
by the action's fields plus a fresh `lastUpdate`, broadcasts the action to the
room minus the origin, and changes nothing else (same members, chat, episode
ids and host; other rooms and bindings untouched). -/
theorem C8_videoAction_host (s : ServerState) (connId roomCode : Nat)
    (room : Room) (action : VideoAction) (now : Nat)
    (hc : mapLookup s.conns connId = some roomCode)
    (hr : mapLookup s.rooms roomCode = some room)
    (hh : room.host = connId) :
    videoAction s connId action now =
      ({ s with rooms := mapSet s.rooms roomCode ({ room with
          videoState := { isPlaying := action.isPlaying,
                          currentTime := action.currentTime,
                          lastUpdate := now } }) },
       [(Target.roomExcept roomCode connId, Ev.videoActionEv action)]) ∧
    (∀ code', code' ≠ roomCode →
      mapLookup (videoAction s connId action now).1.rooms code' =
        mapLookup s.rooms code') := by
  constructor
  · simp only [videoAction, hc, hr, if_pos hh]
  · intro code' hne
    simp only [videoAction, hc, hr, if_pos hh]
    exact mapLookup_set_ne s.rooms roomCode code' _ hne

/-- Witness for C8: Alice (host) sends a video action in the demo room. -/
theorem C8_videoAction_host_witness :
    videoAction demoJoin 1 { isPlaying := true, currentTime := 42 } 9 =
      ({ demoJoin with rooms := mapSet demoJoin.rooms 10000 ({ demoRoom with
          videoState := { isPlaying := true, currentTime := 42,
                          lastUpdate := 9 } }) },
       [(Target.roomExcept 10000 1, Ev.videoActionEv
         { isPlaying := true, currentTime := 42 })]) :=
  (C8_videoAction_host demoJoin 1 10000 demoRoom
    { isPlaying := true, currentTime := 42 } 9 rfl rfl rfl).1

/-- Claim C9: a host `changeEpisode` sets the episode and anime ids and
broadcasts to the whole room, origin included; a non-host (or unresolved)
request is silently dropped with no state change and no events. -/
theorem C9_changeEpisode_spec (s : ServerState) (connId : Nat)
    (episodeId animeId : String) :
    (∀ roomCode room, mapLookup s.conns connId = some roomCode →
      mapLookup s.rooms roomCode = some room → room.host = connId →
      changeEpisode s connId episodeId animeId =
        ({ s with rooms := mapSet s.rooms roomCode ({ room with
            currentEpisode := some episodeId,
            animeId := some animeId }) },
         [(Target.roomAll roomCode, Ev.changeEpisodeEv episodeId animeId)])) ∧
    ((∀ roomCode room, mapLookup s.conns connId = some roomCode →
      mapLookup s.rooms roomCode = some room → room.host ≠ connId) →
      changeEpisode s connId episodeId animeId = (s, [])) := by
  constructor
  · intro roomCode room hc hr hh
    simp only [changeEpisode, hc, hr, if_pos hh]
  · intro h
    cases hc : mapLookup s.conns connId with
    | none => simp only [changeEpisode, hc]
    | some roomCode =>
      cases hr : mapLookup s.rooms roomCode with
      | none => simp only [changeEpisode, hc, hr]
      | some room =>
        simp only [changeEpisode, hc, hr, if_neg (h roomCode room hc hr)]

/-- Witness for C9: host changes the episode; non-host attempt is dropped. -/
theorem C9_changeEpisode_spec_witness :
    changeEpisode demoJoin 1 "ep2" "anime7" =
      ({ demoJoin with rooms := mapSet demoJoin.rooms 10000 ({ demoRoom with
          currentEpisode := some "ep2",
          animeId := some "anime7" }) },
       [(Target.roomAll 10000, Ev.changeEpisodeEv "ep2" "anime7")]) ∧
    changeEpisode demoJoin 2 "ep2" "anime7" = (demoJoin, []) := by
  constructor
  · exact (C9_changeEpisode_spec demoJoin 1 "ep2" "anime7").1 10000 demoRoom
      rfl rfl rfl
  · apply (C9_changeEpisode_spec demoJoin 2 "ep2" "anime7").2
    intro roomCode room h1 h2
    rw [show mapLookup demoJoin.conns 2 = some 10000 from rfl] at h1
    injection h1 with h1
    subst h1
    rw [show mapLookup demoJoin.rooms 10000 = some demoRoom from rfl] at h2
    injection h2 with h2
    subst h2
    decide

/-- Claim C10: `getRoomInfo` is not membership-gated: whatever the requesting
connection is, a lookup of a live code replies with the members, episode ids
and video state (and no chat field exists in the `roomInfo` payload), leaving
the state unchanged. -/
theorem C10_getRoomInfo_open (s : ServerState) (connId roomCode : Nat)
    (room : Room) (hr : mapLookup s.rooms roomCode = some room) :
    getRoomInfo s connId roomCode =
      (s, [(Target.conn connId, Ev.roomInfo (room.members.map Prod.snd)
        room.currentEpisode room.animeId room.videoState)]) := by
  simp only [getRoomInfo, hr]

/-- Witness for C10: connection 99, a member of no room, queries the demo
room and receives the full snapshot. -/
theorem C10_getRoomInfo_open_witness :
    getRoomInfo demoJoin 99 10000 =
      (demoJoin, [(Target.conn 99, Ev.roomInfo
        [{ nickname := "Alice", isHost := true },
         { nickname := "Bob", isHost := false }]
        none none { isPlaying := false, currentTime := 0, lastUpdate := 5 })]) :=
  C10_getRoomInfo_open demoJoin 99 10000 demoRoom rfl

end Server
